import Mathlib

/-!
Verification development for the `notion-ical` converter.

The repository normalizes Notion data (live API pages or exported CSV
archives) into calendar `Event` values.  This file gives a shallow
embedding of the normalization layer:

* a model of the subset of Go's `time` package semantics exercised by
  `parseNotionDate` / `parseNotionTime` / `parseNotionDateRange`
  (the layout strings are the fixed format lists of the source, so the
  layout-directive recognizer below covers exactly the directives
  reachable from those lists; all other layout characters are literals,
  matching Go's behaviour on these layouts);
* the date-range parser of the source;
* SHA-256 and hex encoding (Go `crypto/sha256`, `encoding/hex`);
* the block-content flattener of `source_api.go`;
* `eventFromPage` and the `NewSourceAPI` schema validation;
* the CSV snapshot source of `source_export.go`.

Go maps have unspecified iteration order; wherever the source ranges
over a map, the model takes an association list whose order stands for
one realizable iteration order.  Go panics (nil-pointer dereferences)
are modelled as `Option.none`.
-/

namespace NotionIcal

/-- Model of `*time.Location`: a named fixed offset (minutes east of UTC).
No code under verification does zone arithmetic; the location is only
attached to parsed times and printed by `MarshalText`. -/
structure Location where
  name : String
  offsetMin : Int
deriving DecidableEq, Repr

/-- The UTC location (`time.UTC`). -/
def utc : Location := ⟨"UTC", 0⟩

/-- Model of `time.Time` as a broken-down civil time plus location.
All times produced by the modelled code have in-range fields (the Go
parser validates ranges before `time.Date` is called), so no
normalization is needed. -/
structure GoTime where
  year : Int
  month : Nat
  day : Nat
  hour : Nat
  minute : Nat
  second : Nat
  loc : Location
deriving DecidableEq, Repr

/-- The zero `time.Time`: January 1, year 1, 00:00:00 UTC. -/
def goZeroTime : GoTime := ⟨1, 1, 1, 0, 0, 0, utc⟩

/-- Strict "earlier than" on `GoTime` values carrying the same location
(lexicographic on the civil fields, which agrees with `time.Time.Before`
when the offsets are equal). -/
def GoTime.before (a b : GoTime) : Bool :=
  if a.year ≠ b.year then a.year < b.year
  else if a.month ≠ b.month then a.month < b.month
  else if a.day ≠ b.day then a.day < b.day
  else if a.hour ≠ b.hour then a.hour < b.hour
  else if a.minute ≠ b.minute then a.minute < b.minute
  else a.second < b.second

/-! ## Go layout parsing (`time.ParseInLocation`)

The source parses with layouts built from
`notionDateFormats = ["January 2, 2006", "2006/01/02"]` and
`notionTimeFormats = ["15:04", "3:00 PM"]`.  The layout directives
occurring in those layouts are: `January`, `2`, `2006`, `01`, `02`,
`15`, `04`, `3`, `PM` (the substring `00` of `3:00 PM` is literal text
in Go, because `0` is only a directive when followed by `1`-`6`). -/

/-- Layout directives (`std` chunks of Go's `nextStdChunk`) needed for
the repository's format strings, plus the one-digit variants reachable
from the same leading characters. -/
inductive GoStd where
  | longMonth
  | numMonth
  | day
  | zeroMonth
  | zeroDay
  | zeroMinute
  | zeroSecond
  | minuteStd
  | secondStd
  | longYear
  | hour24
  | hour12
  | pmUpper
deriving DecidableEq, Repr

/-- Does `pat` start the list `s`? (exact characters) -/
def startsWithL : List Char → List Char → Bool
  | [], _ => true
  | _ :: _, [] => false
  | p :: ps, c :: cs => p = c && startsWithL ps cs

/-- Case-insensitive (ASCII) version of `startsWithL`, modelling the
`match` helper of Go's `time` package used for month-name lookup. -/
def startsWithCI : List Char → List Char → Bool
  | [], _ => true
  | _ :: _, [] => false
  | p :: ps, c :: cs => p.toLower = c.toLower && startsWithCI ps cs

/-- Prepend a literal character to the literal prefix of a chunking result. -/
def consLit (c : Char) : List Char × Option GoStd × List Char → List Char × Option GoStd × List Char
  | (lit, std, suffix) => (c :: lit, std, suffix)

/-- Model of Go `nextStdChunk`, restricted to the directives reachable
from the repository's layout strings: returns the literal prefix, the
first directive (if any), and the remaining layout. -/
def nextStdChunk : List Char → List Char × Option GoStd × List Char
  | [] => ([], none, [])
  | 'J' :: rest =>
    if startsWithL "anuary".data rest then ([], some .longMonth, rest.drop 6)
    else consLit 'J' (nextStdChunk rest)
  | '1' :: rest =>
    match rest with
    | '5' :: r2 => ([], some .hour24, r2)
    | _ => ([], some .numMonth, rest)
  | '2' :: rest =>
    if startsWithL "006".data rest then ([], some .longYear, rest.drop 3)
    else ([], some .day, rest)
  | '0' :: rest =>
    match rest with
    | '1' :: r2 => ([], some .zeroMonth, r2)
    | '2' :: r2 => ([], some .zeroDay, r2)
    | '4' :: r2 => ([], some .zeroMinute, r2)
    | '5' :: r2 => ([], some .zeroSecond, r2)
    | _ => consLit '0' (nextStdChunk rest)
  | '3' :: rest => ([], some .hour12, rest)
  | '4' :: rest => ([], some .minuteStd, rest)
  | '5' :: rest => ([], some .secondStd, rest)
  | 'P' :: rest =>
    match rest with
    | 'M' :: r2 => ([], some .pmUpper, r2)
    | _ => consLit 'P' (nextStdChunk rest)
  | c :: rest => consLit c (nextStdChunk rest)

/-- Go `cutspace`: drop leading ASCII space bytes. -/
def cutspace (l : List Char) : List Char := l.dropWhile (fun c => c == ' ')

/-- Go `skip`, fuelled so that it is structurally recursive (every step
shortens the literal, so `lit.length + 1` units of fuel always
suffice): consume the literal `lit` from the front of `value`; runs of
spaces in the literal match runs of spaces in the value (and also an
exhausted value). -/
def skipLitF : Nat → List Char → List Char → Option (List Char)
  | 0, _, _ => none
  | Nat.succ fuel, value, lit =>
    match lit with
    | [] => some value
    | ' ' :: ps =>
      match value with
      | c :: _ =>
        if c ≠ ' ' then none
        else skipLitF fuel (cutspace value) (cutspace ps)
      | [] => skipLitF fuel value (cutspace ps)
    | p :: ps =>
      match value with
      | c :: cs => if c = p then skipLitF fuel cs ps else none
      | [] => none

def skipLit (value lit : List Char) : Option (List Char) :=
  skipLitF (lit.length + 1) value lit

/-- Numeric value of a decimal digit character. -/
def digitVal (c : Char) : Nat := c.toNat - '0'.toNat

/-- Go `getnum`: one- or two-digit number; `fixed` requires two digits. -/
def getnum (value : List Char) (fixed : Bool) : Option (Nat × List Char) :=
  match value with
  | [] => none
  | [c1] =>
    if c1.isDigit && !fixed then some (digitVal c1, ([] : List Char)) else none
  | c1 :: c2 :: rest =>
    if c1.isDigit then
      if c2.isDigit then some (digitVal c1 * 10 + digitVal c2, rest)
      else if fixed then none else some (digitVal c1, c2 :: rest)
    else none

/-- Go's `longMonthNames`. -/
def longMonthNames : List String :=
  ["January", "February", "March", "April", "May", "June", "July",
   "August", "September", "October", "November", "December"]

/-- Go `lookup` over the long month names: first case-insensitive
prefix match wins; returns the 1-based month and the rest of the value. -/
def monthFrom : List String → Nat → List Char → Option (Nat × List Char)
  | [], _, _ => none
  | n :: rest, idx, value =>
    if startsWithCI n.data value then some (idx + 1, value.drop n.length)
    else monthFrom rest (idx + 1) value

def monthLookup (value : List Char) : Option (Nat × List Char) :=
  monthFrom longMonthNames 0 value

/-- Intermediate state of Go `Parse` (only the fields our layouts can set). -/
structure PState where
  year : Int
  month : Nat
  day : Nat
  hour : Nat
  minute : Nat
  second : Nat
  pmSet : Bool
  amSet : Bool
deriving DecidableEq, Repr

def pstate0 : PState := ⟨0, 1, 1, 0, 0, 0, false, false⟩

/-- Read exactly four decimal digits (Go `stdLongYear`). -/
def fourDigitYear (value : List Char) : Option (Nat × List Char) :=
  match value with
  | a :: b :: c :: d :: rest =>
    if a.isDigit && b.isDigit && c.isDigit && d.isDigit then
      some (digitVal a * 1000 + digitVal b * 100 + digitVal c * 10 + digitVal d, rest)
    else none
  | _ => none

/-- Consume one layout directive from the value, per Go `Parse`'s switch
(with the immediate range checks Go performs there). -/
def parseStd (std : GoStd) (value : List Char) (st : PState) : Option (PState × List Char) :=
  match std with
  | .longMonth =>
    match monthLookup value with
    | some (m, v) => some ({st with month := m}, v)
    | none => none
  | .numMonth =>
    match getnum value false with
    | some (m, v) => some ({st with month := m}, v)
    | none => none
  | .zeroMonth =>
    match getnum value true with
    | some (m, v) => some ({st with month := m}, v)
    | none => none
  | .day =>
    match getnum value false with
    | some (d, v) => some ({st with day := d}, v)
    | none => none
  | .zeroDay =>
    match getnum value true with
    | some (d, v) => some ({st with day := d}, v)
    | none => none
  | .longYear =>
    match fourDigitYear value with
    | some (y, v) => some ({st with year := (y : Int)}, v)
    | none => none
  | .hour24 =>
    match getnum value false with
    | some (h, v) => if h ≥ 24 then none else some ({st with hour := h}, v)
    | none => none
  | .hour12 =>
    match getnum value false with
    | some (h, v) => if h > 12 then none else some ({st with hour := h}, v)
    | none => none
  | .zeroMinute =>
    match getnum value true with
    | some (m, v) => if m ≥ 60 then none else some ({st with minute := m}, v)
    | none => none
  | .minuteStd =>
    match getnum value false with
    | some (m, v) => if m ≥ 60 then none else some ({st with minute := m}, v)
    | none => none
  | .zeroSecond =>
    match getnum value true with
    | some (s, v) => if s ≥ 60 then none else some ({st with second := s}, v)
    | none => none
  | .secondStd =>
    match getnum value false with
    | some (s, v) => if s ≥ 60 then none else some ({st with second := s}, v)
    | none => none
  | .pmUpper =>
    match value with
    | 'P' :: 'M' :: v => some ({st with pmSet := true}, v)
    | 'A' :: 'M' :: v => some ({st with amSet := true}, v)
    | _ => none

/-- The chunk-consuming loop of Go `Parse`.  The fuel is the layout
length plus one; every iteration consumes at least one layout
character, so the fuel never runs out on the repository's layouts. -/
def goParseRun : Nat → List Char → List Char → PState → Option PState
  | 0, _, _, _ => none
  | Nat.succ fuel, layout, value, st =>
    match nextStdChunk layout with
    | (lit, none, _) =>
      match skipLit value lit with
      | none => none
      | some v => if v.isEmpty then some st else none
    | (lit, some std, suffix) =>
      match skipLit value lit with
      | none => none
      | some v =>
        match parseStd std v st with
        | none => none
        | some (st2, v2) => goParseRun fuel suffix v2 st2

/-- Go `isLeap`. -/
def isLeapYear (y : Int) : Bool := y % 4 = 0 && (y % 100 ≠ 0 || y % 400 = 0)

/-- Go `daysIn`. -/
def daysInMonth (m : Nat) (year : Int) : Nat :=
  if m = 2 && isLeapYear year then 29
  else [31, 28, 31, 30, 31, 30, 31, 31, 30, 31, 30, 31].getD (m - 1) 0

/-- The post-loop fixups and range checks of Go `Parse`
(AM/PM resolution, month range, day-of-month range), followed by
`time.Date(...)` in the requested location. -/
def goFinish (st : PState) (loc : Location) : Option GoTime :=
  let hour :=
    if st.pmSet && st.hour < 12 then st.hour + 12
    else if st.amSet && st.hour = 12 then 0
    else st.hour
  if st.month < 1 || st.month > 12 then none
  else if st.day < 1 || st.day > daysInMonth st.month st.year then none
  else some ⟨st.year, st.month, st.day, hour, st.minute, st.second, loc⟩

/-- Model of `time.ParseInLocation` for the repository's layouts.
`none` models a non-nil Go parse error. -/
def goParseInLocation (layout value : String) (loc : Location) : Option GoTime :=
  match goParseRun (layout.length + 1) layout.data value.data pstate0 with
  | none => none
  | some st => goFinish st loc

/-! ## The date-range parser (src/unnamed/part_000, date parsing file) -/

/-- The error values of the modelled sources (`errors.New` values of the
repository, with the dynamic message payloads they wrap). -/
inductive Err where
  | parseDate (offending : String)
  | noDateProperty
  | noTitleProperty
  | noHideProperty
  | csvRead (msg : String)
  | marshalRange
deriving DecidableEq, Repr

def notionTimeFormats : List String := ["15:04", "3:00 PM"]

def notionDateFormats : List String := ["January 2, 2006", "2006/01/02"]

/-- ASCII whitespace recognized by `strings.TrimSpace` on the inputs in
scope (the repository's data is ASCII; Unicode spaces are out of scope). -/
def isSpaceChar (c : Char) : Bool := c = ' ' || c = '\t' || c = '\n' || c = '\r'

/-- Model of `strings.TrimSpace`. -/
def trimSpace (s : String) : String :=
  ⟨((s.data.dropWhile isSpaceChar).reverse.dropWhile isSpaceChar).reverse⟩

/-- First layout in the list that parses the value, in list order. -/
def firstParse (formats : List String) (d : String) (zone : Location) : Option GoTime :=
  match formats with
  | [] => none
  | f :: rest =>
    match goParseInLocation f d zone with
    | some t => some t
    | none => firstParse rest d zone

/-- `parseNotionDate`: try every date format combined with every time
format (date format outer loop, time format inner loop), first success
wins; otherwise a parse error naming the trimmed input. -/
def parseNotionDate (d : String) (zone : Location) : Except Err GoTime :=
  let dt := trimSpace d
  match firstParse (notionDateFormats.flatMap
      (fun fd => notionTimeFormats.map (fun ft => fd ++ " " ++ ft))) dt zone with
  | some t => .ok t
  | none => .error (.parseDate dt)

/-- `parseNotionTime`: try every time format alone. -/
def parseNotionTime (d : String) (zone : Location) : Except Err GoTime :=
  let dt := trimSpace d
  match firstParse notionTimeFormats dt zone with
  | some t => .ok t
  | none => .error (.parseDate dt)

/-- `mergeNotionDateTime`: the left side's calendar date with the right
side's clock time, in the right side's location
(`time.Date(date.Year(), date.Month(), date.Day(), t.Hour(), t.Minute(), t.Second(), 0, t.Location())`). -/
def mergeNotionDateTime (date t : GoTime) : GoTime :=
  ⟨date.year, date.month, date.day, t.hour, t.minute, t.second, t.loc⟩

/-- `strings.SplitN(r, "→", 2)`: the part before the first arrow and,
if an arrow occurs, the part after it. -/
def splitArrow : List Char → List Char × Option (List Char)
  | [] => ([], none)
  | c :: rest =>
    if c = '→' then ([], some rest)
    else
      match splitArrow rest with
      | (a, b) => (c :: a, b)

/-- `parseNotionDateRange`: parse the left part; if a right part exists,
parse it as a date, falling back to a time-only parse merged onto the
left part's date; with no right part, return the left part twice. -/
def parseNotionDateRange (r : String) (zone : Location) : Except Err (GoTime × GoTime) :=
  match splitArrow r.data with
  | (left, right) =>
    match parseNotionDate ⟨left⟩ zone with
    | .error e => .error e
    | .ok t1 =>
      match right with
      | none => .ok (t1, t1)
      | some rt =>
        match parseNotionDate ⟨rt⟩ zone with
        | .ok t2 => .ok (t1, t2)
        | .error _ =>
          match parseNotionTime ⟨rt⟩ zone with
          | .ok t2 => .ok (t1, mergeNotionDateTime t1 t2)
          | .error e => .error e

/-! ## Byte strings, SHA-256 and hex (Go `[]byte`, `crypto/sha256`, `encoding/hex`) -/

/-- UTF-8 encoding of one character (Go string-to-`[]byte` conversion). -/
def utf8Encode (c : Char) : List Nat :=
  let n := c.toNat
  if n < 0x80 then [n]
  else if n < 0x800 then
    [0xC0 + n / 64, 0x80 + n % 64]
  else if n < 0x10000 then
    [0xE0 + n / 4096, 0x80 + (n / 64) % 64, 0x80 + n % 64]
  else
    [0xF0 + n / 262144, 0x80 + (n / 4096) % 64, 0x80 + (n / 64) % 64, 0x80 + n % 64]

/-- Go `[]byte(s)`. -/
def stringBytes (s : String) : List Nat := s.data.flatMap utf8Encode

def w32 : Nat := 4294967296

/-- 32-bit rotate right. -/
def rotr (n x : Nat) : Nat := (x / 2 ^ n + x % 2 ^ n * 2 ^ (32 - n)) % w32

/-- 32-bit xor. -/
def bxor (a b : Nat) : Nat := Nat.xor a b

def bigSigma0 (x : Nat) : Nat := bxor (bxor (rotr 2 x) (rotr 13 x)) (rotr 22 x)

def bigSigma1 (x : Nat) : Nat := bxor (bxor (rotr 6 x) (rotr 11 x)) (rotr 25 x)

def smallSigma0 (x : Nat) : Nat := bxor (bxor (rotr 7 x) (rotr 18 x)) (x / 2 ^ 3)

def smallSigma1 (x : Nat) : Nat := bxor (bxor (rotr 17 x) (rotr 19 x)) (x / 2 ^ 10)

/-- ch(x,y,z) = (x AND y) XOR (NOT x AND z). -/
def chFn (x y z : Nat) : Nat := bxor (Nat.land x y) (Nat.land (w32 - 1 - x) z)

/-- maj(x,y,z). -/
def majFn (x y z : Nat) : Nat := bxor (bxor (Nat.land x y) (Nat.land x z)) (Nat.land y z)

def sha256K : List Nat :=
  [1116352408, 1899447441, 3049323471, 3921009573, 961987163, 1508970993,
   2453635748, 2870763221, 3624381080, 310598401, 607225278, 1426881987,
   1925078388, 2162078206, 2614888103, 3248222580, 3835390401, 4022224774,
   264347078, 604807628, 770255983, 1249150122, 1555081692, 1996064986,
   2554220882, 2821834349, 2952996808, 3210313671, 3336571891, 3584528711,
   113926993, 338241895, 666307205, 773529912, 1294757372, 1396182291,
   1695183700, 1986661051, 2177026350, 2456956037, 2730485921, 2820302411,
   3259730800, 3345764771, 3516065817, 3600352804, 4094571909, 275423344,
   430227734, 506948616, 659060556, 883997877, 958139571, 1322822218,
   1537002063, 1747873779, 1955562222, 2024104815, 2227730452, 2361852424,
   2428436474, 2756734187, 3204031479, 3329325298]

def sha256H0 : List Nat :=
  [1779033703, 3144134277, 1013904242, 2773480762,
   1359893119, 2600822924, 528734635, 1541459225]

/-- Big-endian 8-byte encoding of a number. -/
def be64 (n : Nat) : List Nat :=
  [n / 2 ^ 56 % 256, n / 2 ^ 48 % 256, n / 2 ^ 40 % 256, n / 2 ^ 32 % 256,
   n / 2 ^ 24 % 256, n / 2 ^ 16 % 256, n / 2 ^ 8 % 256, n % 256]

/-- SHA-256 padding: append 0x80, zero-pad to 56 mod 64, append the
64-bit big-endian bit length. -/
def sha256Pad (msg : List Nat) : List Nat :=
  let l := msg.length
  let padLen := (55 + 64 - l % 64) % 64 + 1
  msg ++ (0x80 :: List.replicate (padLen - 1) 0) ++ be64 (l * 8)

/-- Group bytes into big-endian 32-bit words. -/
def toWords : List Nat → List Nat
  | a :: b :: c :: d :: rest => (a * 2 ^ 24 + b * 2 ^ 16 + c * 2 ^ 8 + d) :: toWords rest
  | _ => []

/-- Message-schedule extension: `acc` holds the words produced so far,
newest first; run `n` more steps. -/
def extendSchedule : Nat → List Nat → List Nat
  | 0, acc => acc.reverse
  | Nat.succ n, acc =>
    let w2 := acc.getD 1 0
    let w7 := acc.getD 6 0
    let w15 := acc.getD 14 0
    let w16 := acc.getD 15 0
    extendSchedule n (((smallSigma1 w2 + w7 + smallSigma0 w15 + w16) % w32) :: acc)

/-- One compression step. -/
def sha256Round (st : List Nat) (kw : Nat × Nat) : List Nat :=
  match st with
  | [a, b, c, d, e, f, g, h] =>
    let t1 := (h + bigSigma1 e + chFn e f g + kw.1 + kw.2) % w32
    let t2 := (bigSigma0 a + majFn a b c) % w32
    [(t1 + t2) % w32, a, b, c, (d + t1) % w32, e, f, g]
  | st => st

/-- Compress one 64-byte block into the hash state. -/
def sha256Block (h : List Nat) (block : List Nat) : List Nat :=
  let ws := extendSchedule 48 (toWords block).reverse
  let st := (sha256K.zip ws).foldl sha256Round h
  (h.zip st).map (fun p => (p.1 + p.2) % w32)

def chunks64F : Nat → List Nat → List (List Nat)
  | 0, _ => []
  | Nat.succ fuel, l =>
    match l with
    | [] => []
    | a :: rest => ((a :: rest).take 64) :: chunks64F fuel ((a :: rest).drop 64)

/-- Group a byte list into 64-byte blocks (fuelled: every step drops at
least one element, so `l.length + 1` units of fuel always suffice). -/
def chunks64 (l : List Nat) : List (List Nat) := chunks64F (l.length + 1) l

/-- `sha256.Sum256`: the 32 digest bytes. -/
def sha256Sum (msg : List Nat) : List Nat :=
  let hs := (chunks64 (sha256Pad msg)).foldl sha256Block sha256H0
  hs.flatMap (fun wrd => [wrd / 2 ^ 24 % 256, wrd / 2 ^ 16 % 256, wrd / 2 ^ 8 % 256, wrd % 256])

def hexDigit (n : Nat) : Char :=
  if n < 10 then Char.ofNat ('0'.toNat + n) else Char.ofNat ('a'.toNat + n - 10)

/-- `hex.EncodeToString` (lowercase). -/
def hexEncode (bytes : List Nat) : String :=
  ⟨bytes.flatMap (fun b => [hexDigit (b / 16), hexDigit (b % 16)])⟩

/-! ## `time.Time.MarshalText` (RFC 3339, zero nanoseconds) -/

/-- Left-pad a decimal rendering to `w` digits. -/
def padNum (w n : Nat) : String :=
  let s := toString n
  ⟨List.replicate (w - s.length) '0'⟩ ++ s

/-- Model of `time.Time.MarshalText`: RFC 3339 text; the year must lie
in [0, 9999]; a zero offset prints `Z`, otherwise `±hh:mm`. -/
def marshalText (t : GoTime) : Except Err String :=
  if t.year < 0 || t.year > 9999 then .error .marshalRange
  else
    let zonePart :=
      if t.loc.offsetMin = 0 then "Z"
      else
        let sign := if t.loc.offsetMin < 0 then "-" else "+"
        let absMin := t.loc.offsetMin.natAbs
        sign ++ padNum 2 (absMin / 60) ++ ":" ++ padNum 2 (absMin % 60)
    .ok (padNum 4 t.year.toNat ++ "-" ++ padNum 2 t.month ++ "-" ++ padNum 2 t.day ++ "T" ++
      padNum 2 t.hour ++ ":" ++ padNum 2 t.minute ++ ":" ++ padNum 2 t.second ++ zonePart)

/-! ## Rich text and content blocks (src/source_api.go) -/

/-- `notion.RichText`, reduced to the plain-text payload the code reads. -/
structure RichText where
  plainText : String
deriving DecidableEq, Repr

/-- `richTextToString`: concatenate the plain-text runs. -/
def richTextToString (rt : List RichText) : String :=
  String.join (rt.map (fun r => r.plainText))

/-- The block variants of `convertBlockContentPlain` that carry rich
text or no payload.  Media/table/link variants of the Go switch are not
modelled; no claim mentions them, and every theorem below quantifies
over trees built from these constructors. -/
inductive BlockType where
  | paragraph
  | heading1
  | heading2
  | heading3
  | bulletedListItem
  | numberedListItem
  | toDo
  | toggle
  | callout
  | quote
  | code
  | divider
  | childPage
deriving DecidableEq, Repr

/-- A content block: type, rich text, `ToDo` checked flag, children. -/
inductive Block where
  | mk : BlockType → List RichText → Option Bool → List Block → Block

def Block.btype : Block → BlockType
  | .mk ty _ _ _ => ty

def Block.rich : Block → List RichText
  | .mk _ rt _ _ => rt

def Block.checked : Block → Option Bool
  | .mk _ _ ch _ => ch

def Block.children : Block → List Block
  | .mk _ _ _ cs => cs

/-- `HasChildren()`, consistent with the children actually fetched. -/
def Block.hasChildren (b : Block) : Bool := !b.children.isEmpty

/-- `convertBlockContentPlain`: one rendered line per block type.
A `child_page` block hits no case of the Go switch and renders `""`. -/
def convertBlockContentPlain (b : Block) : String :=
  match b.btype with
  | .paragraph => richTextToString b.rich
  | .heading1 => "# " ++ richTextToString b.rich
  | .heading2 => "## " ++ richTextToString b.rich
  | .heading3 => "### " ++ richTextToString b.rich
  | .bulletedListItem => "- " ++ richTextToString b.rich
  | .numberedListItem => "* " ++ richTextToString b.rich
  | .toDo =>
    (if b.checked = some true then "[x] " else "[ ] ") ++ richTextToString b.rich
  | .toggle => "^ " ++ richTextToString b.rich
  | .callout => "! " ++ richTextToString b.rich
  | .quote => "> " ++ richTextToString b.rich
  | .code => "```\n" ++ richTextToString b.rich ++ "\n```"
  | .divider => "--------------------------"
  | .childPage => ""

/-- `getBlockChildrenContentPlain`: every child contributes its own
rendered line and then, if it has children, their lines (depth-first;
the pagination loop of the source returns the children in order and is
modelled by the full child list). -/
def getBlockChildrenContentPlain : List Block → List String
  | [] => []
  | Block.mk ty rt ch cs :: rest =>
    (convertBlockContentPlain (Block.mk ty rt ch cs) ::
      (if (Block.mk ty rt ch cs).hasChildren then getBlockChildrenContentPlain cs else [])) ++
      getBlockChildrenContentPlain rest

/-- `getPageContentPlain`: the switch on the fetched root block has a
value-typed `case notion.ChildPageBlock:` arm, but go-notion v0.11.0
decodes blocks to pointer types (`*notion.ChildPageBlock` — which is
also why `convertBlockContentPlain`'s pointer-typed cases match), so
that arm never fires and the `default:` arm appends the root's rendered
line unconditionally; a `child-page` root therefore renders the empty
line like any descendant.  Then, if the root has children, their lines
follow. -/
def getPageContentPlain (root : Block) : List String :=
  [convertBlockContentPlain root] ++
  (if root.hasChildren then getBlockChildrenContentPlain root.children else [])

/-! ## The live source (src/source_api.go) -/

/-- `notion.Date`: a start instant and an optional end instant
(`End *notion.DateTime`). -/
structure NotionDate where
  start : GoTime
  endv : Option GoTime
deriving DecidableEq, Repr

/-- `notion.DatabasePageProperty`, reduced to the fields the modelled
code reads.  `type` uses the string constants of the `go-notion`
library ("title", "date", "relation", "rich_text", "select",
"checkbox", "url"). -/
structure DatabasePageProperty where
  type : String
  name : String
  title : List RichText
  richText : List RichText
  date : Option NotionDate
  selectName : Option String
  relation : List String
  checkbox : Option Bool
  url : Option String
deriving DecidableEq, Repr

/-- The `EventProperty` interface with its two implementations
(`apiProperty` over a page property, `exportProperty` over a CSV
header/cell pair). -/
inductive EventProperty where
  | api : DatabasePageProperty → EventProperty
  | exportProperty : String → String → EventProperty
deriving DecidableEq, Repr

def EventProperty.NameString : EventProperty → String
  | .api p => p.name
  | .exportProperty n _ => n

/-- `time.DateTime` format "2006-01-02 15:04:05". -/
def goFormatDateTime (t : GoTime) : String :=
  padNum 4 t.year.toNat ++ "-" ++ padNum 2 t.month ++ "-" ++ padNum 2 t.day ++ " " ++
    padNum 2 t.hour ++ ":" ++ padNum 2 t.minute ++ ":" ++ padNum 2 t.second

/-- `ValueString` for the modelled property payloads (the Go switch
renders each type tag from its payload; unmodelled tags render ""). -/
def EventProperty.ValueString : EventProperty → String
  | .api p =>
    if p.type = "title" then richTextToString p.title
    else if p.type = "rich_text" then richTextToString p.richText
    else if p.type = "select" then (match p.selectName with | some s => s | none => "")
    else if p.type = "date" then
      match p.date with
      | some d =>
        match d.endv with
        | some e => goFormatDateTime d.start ++ " → " ++ goFormatDateTime e
        | none => goFormatDateTime d.start
      | none => ""
    else if p.type = "relation" then String.intercalate ", " p.relation
    else if p.type = "checkbox" then
      match p.checkbox with
      | some true => "Yes"
      | some false => "No"
      | none => ""
    else if p.type = "url" then (match p.url with | some u => u | none => "")
    else ""
  | .exportProperty _ v => v

/-- The `Event` struct of event.go (`End` is `endTime` here because
`end` is reserved in Lean). -/
structure Event where
  id : String
  title : String
  emoji : String
  url : String
  start : GoTime
  endTime : GoTime
  content : List String
  properties : List EventProperty
deriving DecidableEq, Repr

/-- `notion.Icon`, reduced to the emoji pointer. -/
structure Icon where
  emoji : Option String
deriving DecidableEq, Repr

/-- A fetched page: identifier, URL, icon, typed properties (an
association list standing for one iteration order of the Go map), and
the page's own content block. -/
structure Page where
  id : String
  url : String
  icon : Option Icon
  properties : List (String × DatabasePageProperty)
  block : Block

/-- `ConfigSourceAPI`. -/
structure ConfigSourceAPI where
  APIKey : String
  DatabaseID : String
  DateProperty : String
  HideProperty : String
deriving DecidableEq, Repr

/-- Does `eventFromPage` consume this property as the event's date?
(the `case notion.DBPropTypeDate` arms that assign `start`/`end`). -/
def usesDate (cfg : ConfigSourceAPI) (pr : String × DatabasePageProperty) : Prop :=
  pr.2.type = "date" ∧ (cfg.DateProperty = "" ∨ pr.1 = cfg.DateProperty)

instance (cfg : ConfigSourceAPI) (pr : String × DatabasePageProperty) :
    Decidable (usesDate cfg pr) := by
  unfold usesDate
  infer_instance

/-- The name-population step of `eventFromPage`: because `QueryDatabase`
does not populate `Name`, an empty `Name` is replaced by the map key. -/
def populateName (pr : String × DatabasePageProperty) : DatabasePageProperty :=
  if pr.2.name = "" then
    ⟨pr.2.type, pr.1, pr.2.title, pr.2.richText, pr.2.date, pr.2.selectName, pr.2.relation,
      pr.2.checkbox, pr.2.url⟩
  else pr.2

/-- The property loop of `eventFromPage`.  `none` models the nil
dereference of `property.Date.Start` / `property.Date.End` when the
date property in use carries no value or no end instant. -/
def eventFromPageLoop (cfg : ConfigSourceAPI) :
    List (String × DatabasePageProperty) → String → GoTime → GoTime → List EventProperty →
    Option (String × GoTime × GoTime × List EventProperty)
  | [], title, start, endv, acc => some (title, start, endv, acc)
  | (pname, p) :: rest, title, start, endv, acc =>
    if p.type = "title" then
      eventFromPageLoop cfg rest (richTextToString p.title) start endv acc
    else if usesDate cfg (pname, p) then
      match p.date with
      | none => none
      | some d =>
        match d.endv with
        | none => none
        | some e => eventFromPageLoop cfg rest title d.start e acc
    else if p.type = "relation" then
      eventFromPageLoop cfg rest title start endv acc
    else
      eventFromPageLoop cfg rest title start endv
        (acc ++ [EventProperty.api (populateName (pname, p))])

/-- Go `strings.Compare(a, b) < 0`: lexicographic comparison of the
code-point sequences (UTF-8 byte order and code-point order agree). -/
def goStringLt : List Char → List Char → Bool
  | [], [] => false
  | [], _ :: _ => true
  | _ :: _, [] => false
  | a :: as, b :: bs =>
    if a.toNat = b.toNat then goStringLt as bs else decide (a.toNat < b.toNat)

/-- The comparator of the `sort.Slice` call, as a weak order: Go sorts
with `less i j = strings.Compare(name i, name j) < 0`, an unstable sort
whose every possible outcome is a permutation of the input in which no
later name compares strictly below an earlier one; the model realizes
one such outcome with an insertion sort on the complement relation. -/
def nameLe (a b : EventProperty) : Prop :=
  goStringLt b.NameString.data a.NameString.data = false

instance : DecidableRel nameLe := fun a b =>
  instDecidableEqBool (goStringLt b.NameString.data a.NameString.data) false

theorem goStringLt_total (x y : List Char) :
    goStringLt x y = false ∨ goStringLt y x = false := by
  induction x generalizing y with
  | nil =>
    cases y with
    | nil => exact Or.inl rfl
    | cons b bs => exact Or.inr rfl
  | cons a as ih =>
    cases y with
    | nil => exact Or.inl rfl
    | cons b bs =>
      by_cases hab : a.toNat = b.toNat
      · have hba : b.toNat = a.toNat := hab.symm
        rcases ih bs with h | h
        · exact Or.inl (by simp [goStringLt, hab, h])
        · exact Or.inr (by simp [goStringLt, hba, h])
      · have hba : ¬ b.toNat = a.toNat := fun h => hab h.symm
        by_cases hlt : a.toNat < b.toNat
        · exact Or.inr (by simp [goStringLt, hba]; omega)
        · exact Or.inl (by simp [goStringLt, hab]; omega)

theorem goStringLt_ge_trans (a b c : List Char) (h1 : goStringLt b a = false)
    (h2 : goStringLt c b = false) : goStringLt c a = false := by
  induction a generalizing b c with
  | nil =>
    cases c with
    | nil => rfl
    | cons c1 cr => rfl
  | cons a1 ar ih =>
    cases c with
    | nil =>
      cases b with
      | nil => simp [goStringLt] at h1
      | cons b1 br => simp [goStringLt] at h2
    | cons c1 cr =>
      cases b with
      | nil => simp [goStringLt] at h1
      | cons b1 br =>
        simp only [goStringLt] at h1 h2 ⊢
        by_cases hba : b1.toNat = a1.toNat
        · rw [if_pos hba] at h1
          by_cases hcb : c1.toNat = b1.toNat
          · rw [if_pos hcb] at h2
            rw [if_pos (hcb.trans hba)]
            exact ih br cr h1 h2
          · rw [if_neg hcb] at h2
            have hca : ¬ c1.toNat = a1.toNat := by omega
            rw [if_neg hca]
            simp only [decide_eq_false_iff_not] at h2 ⊢
            omega
        · rw [if_neg hba] at h1
          simp only [decide_eq_false_iff_not] at h1
          by_cases hcb : c1.toNat = b1.toNat
          · rw [if_pos hcb] at h2
            have hca : ¬ c1.toNat = a1.toNat := by omega
            rw [if_neg hca]
            simp only [decide_eq_false_iff_not]
            omega
          · rw [if_neg hcb] at h2
            simp only [decide_eq_false_iff_not] at h2
            by_cases hca : c1.toNat = a1.toNat
            · rw [if_pos hca]
              exfalso
              omega
            · rw [if_neg hca]
              simp only [decide_eq_false_iff_not]
              omega

instance : IsTotal EventProperty nameLe :=
  ⟨fun a b => goStringLt_total b.NameString.data a.NameString.data⟩

instance : IsTrans EventProperty nameLe :=
  ⟨fun _ _ _ h1 h2 => goStringLt_ge_trans _ _ _ h1 h2⟩

/-- The icon handling of `eventFromPage`
(`page.Icon != nil && page.Icon.Emoji != nil`). -/
def pageEmoji (page : Page) : String :=
  match page.icon with
  | some ic => match ic.emoji with | some e => e | none => ""
  | none => ""

/-- `eventFromPage` (the content fetch is modelled by the page's block
tree; fetch errors are out of scope of the modelled claims). -/
def eventFromPage (cfg : ConfigSourceAPI) (page : Page) : Option Event :=
  match eventFromPageLoop cfg page.properties "" goZeroTime goZeroTime [] with
  | none => none
  | some (title, start, endv, props) =>
    some ⟨page.id ++ "@notion-ical", title, pageEmoji page, page.url, start, endv,
      getPageContentPlain page.block, props.insertionSort nameLe⟩

/-- The configuration errors of `NewSourceAPI`, with the dynamic data
the Go error message interpolates (note: the hide-property message also
interpolates `config.DateProperty`, as the source does). -/
inductive ApiError where
  | noDateProperty (prop : String) (available : List String)
  | noHideProperty (prop : String) (available : List String)
deriving DecidableEq, Repr

/-- The property-scanning loop of `NewSourceAPI`: counts date-property
and hide-property matches and collects the schema's field names in
iteration order. -/
def newSourceAPIScan (cfg : ConfigSourceAPI) :
    List (String × String) → Nat → Nat → List String → Nat × Nat × List String
  | [], d, h, names => (d, h, names)
  | (pname, ptype) :: rest, d, h, names =>
    if ptype = "date" then
      if cfg.DateProperty = "" then newSourceAPIScan cfg rest (d + 1) h (names ++ [pname])
      else if pname = cfg.DateProperty then newSourceAPIScan cfg rest (d + 1) h (names ++ [pname])
      else newSourceAPIScan cfg rest d h (names ++ [pname])
    else if ptype = "checkbox" then
      if cfg.HideProperty = "" then newSourceAPIScan cfg rest d h (names ++ [pname])
      else if pname = cfg.HideProperty then newSourceAPIScan cfg rest d (h + 1) (names ++ [pname])
      else newSourceAPIScan cfg rest d h (names ++ [pname])
    else newSourceAPIScan cfg rest d h (names ++ [pname])

/-- The schema validation of `NewSourceAPI` (after the database fetch,
which is an external fallible call): requires exactly one date-property
match, and exactly one hide-property match when one is configured. -/
def newSourceAPIValidate (cfg : ConfigSourceAPI) (schema : List (String × String)) :
    Except ApiError Unit :=
  match newSourceAPIScan cfg schema 0 0 [] with
  | (d, h, names) =>
    if d ≠ 1 then .error (.noDateProperty cfg.DateProperty names)
    else if cfg.HideProperty ≠ "" && h ≠ 1 then .error (.noHideProperty cfg.DateProperty names)
    else .ok ()

/-! ## The snapshot source (src/source_export.go) -/

/-- `ConfigSourceExport`.  The `Archive` handle is modelled by the
decoded row sequence of the selected CSV file (header row first):
`encoding/csv` decoding reads only the archive bytes and no
configuration field. -/
structure ConfigSourceExport where
  archive : List (List String)
  zone : Location
  DateProperty : String
  HideProperty : String
deriving DecidableEq, Repr

/-- Go map assignment `m[k] = v` on the association-list realization:
replace in place or append. -/
def mapSet : List (String × String) → String → String → List (String × String)
  | [], k, v => [(k, v)]
  | (k0, v0) :: rest, k, v =>
    if k0 = k then (k, v) :: rest else (k0, v0) :: mapSet rest k v

/-- Go map lookup `m[k]` with presence flag. -/
def mapGet : List (String × String) → String → Option String
  | [], _ => none
  | (k0, v0) :: rest, k => if k0 = k then some v0 else mapGet rest k

/-- `headersAndRecordToMap`: hard error on a header/record length
mismatch; otherwise the row keyed by header (later duplicate headers
overwrite earlier ones, as Go map assignment does). -/
def headersAndRecordToMap (headers record : List String) :
    Except Err (List (String × String)) :=
  if headers.length ≠ record.length then
    .error (.csvRead "unmatching header and record length")
  else
    .ok ((headers.zip record).foldl (fun m kv => mapSet m kv.1 kv.2) [])

/-- ASCII `strings.ToLower` (the synonym lists and the headers in scope
are ASCII). -/
def lowerS (s : String) : String := ⟨s.data.map Char.toLower⟩

/-- `strings.Contains`. -/
def containsSub (l needle : List Char) : Bool :=
  if startsWithL needle l then true
  else
    match l with
    | [] => false
    | _ :: t => containsSub t needle

/-- Does `key` match any synonym in `names` — exactly when `exact`,
else by substring — case-insensitively?  (the inner loop of
`findFirstColumn`). -/
def passMatch (exact : Bool) (names : List String) (key : String) : Bool :=
  names.any fun q =>
    if exact then lowerS key = lowerS q
    else containsSub (lowerS key).data (lowerS q).data

/-- One pass of `findFirstColumn` over the map entries in iteration
order: the first key that matches any synonym wins. -/
def findFirstColumnPass (exact : Bool) (names : List String) :
    List (String × String) → Option (String × String)
  | [] => none
  | (key, value) :: rest =>
    if passMatch exact names key then some (key, value)
    else findFirstColumnPass exact names rest

/-- `findFirstColumn`: exact pass, then substring pass, then
`("", "")`. -/
def findFirstColumn (names : List String) (m : List (String × String)) : String × String :=
  match findFirstColumnPass true names m with
  | some r => r
  | none =>
    match findFirstColumnPass false names m with
    | some r => r
    | none => ("", "")

/-- The date-cell resolution of `eventFromCSVRow`. -/
def resolveDateCell (cfg : ConfigSourceExport) (m : List (String × String)) :
    Except Err (String × String) :=
  if cfg.DateProperty = "" then
    match findFirstColumn ["date", "when", "period"] m with
    | (dk, dv) => if dk = "" then .error .noDateProperty else .ok (dk, dv)
  else
    match mapGet m cfg.DateProperty with
    | some dv => .ok (cfg.DateProperty, dv)
    | none => .error .noDateProperty

/-- `eventFromCSVRow`. -/
def eventFromCSVRow (cfg : ConfigSourceExport) (headers record : List String) :
    Except Err Event :=
  match headersAndRecordToMap headers record with
  | .error e => .error e
  | .ok m =>
    match resolveDateCell cfg m with
    | .error e => .error e
    | .ok (dateKey, date) =>
      match parseNotionDateRange date cfg.zone with
      | .error e => .error e
      | .ok (start, endv) =>
        match findFirstColumn ["name", "title"] m with
        | (titleKey, title) =>
          if titleKey = "" then .error .noTitleProperty
          else
            let properties := (headers.zip record).foldl (fun acc kv =>
              if kv.1 = dateKey || kv.1 = titleKey then acc
              else acc ++ [EventProperty.exportProperty kv.1 kv.2]) []
            match marshalText start with
            | .error e => .error e
            | .ok dateText =>
              .ok ⟨hexEncode (sha256Sum (stringBytes title ++ stringBytes dateText)) ++
                    "@notion-ical-export",
                  title, "", "", start, endv, [], properties⟩

/-- The row loop of `SourceExport.ReadAll` (rows after the header row,
in file order; the first failing row aborts the read). -/
def eventsFromRows (cfg : ConfigSourceExport) (headers : List String) :
    List (List String) → Except Err (List Event)
  | [] => .ok []
  | r :: rest =>
    match eventFromCSVRow cfg headers r with
    | .error e => .error e
    | .ok ev =>
      match eventsFromRows cfg headers rest with
      | .error e => .error e
      | .ok evs => .ok (ev :: evs)

/-- `SourceExport.ReadAll`: the first row is the header row (its
absence is the header read error); the remaining rows become events. -/
def readAllExport (cfg : ConfigSourceExport) : Except Err (List Event) :=
  match cfg.archive with
  | [] => .error (.csvRead "headers")
  | headers :: rows => eventsFromRows cfg headers rows

/-- `strings.HasSuffix`. -/
def hasSuffix (s suffix : String) : Bool :=
  startsWithL suffix.data.reverse s.data.reverse

/-- The CSV-selection loop of `NewSourceExport` over the archive's
entry names in enumeration order: every `.csv` name overwrites `name`. -/
def findCSVName (files : List String) : String :=
  files.foldl (fun name f => if hasSuffix f ".csv" then f else name) ""

/-- The table-selection step of `NewSourceExport`: the retained name,
or a hard error when no entry has the `.csv` extension. -/
def newSourceExportName (files : List String) : Except String String :=
  match findCSVName files with
  | name => if name = "" then .error "cannot find CSV file in ZIP file" else .ok name

/-! ## Helper lemmas -/

/-- The date-match predicate counted by the `NewSourceAPI` scan. -/
def datePredicate (cfg : ConfigSourceAPI) (pr : String × String) : Bool :=
  pr.2 = "date" && (cfg.DateProperty = "" || pr.1 = cfg.DateProperty)

/-- The hide-match predicate counted by the `NewSourceAPI` scan. -/
def hidePredicate (cfg : ConfigSourceAPI) (pr : String × String) : Bool :=
  pr.2 = "checkbox" && (!(cfg.HideProperty = "") && pr.1 = cfg.HideProperty)

theorem newSourceAPIScan_eq (cfg : ConfigSourceAPI) (l : List (String × String))
    (d h : Nat) (names : List String) :
    newSourceAPIScan cfg l d h names =
      (d + l.countP (datePredicate cfg), h + l.countP (hidePredicate cfg),
        names ++ l.map Prod.fst) := by
  induction l generalizing d h names with
  | nil => simp [newSourceAPIScan]
  | cons pr rest ih =>
    obtain ⟨pname, ptype⟩ := pr
    simp only [newSourceAPIScan]
    by_cases h1 : ptype = "date"
    · by_cases h2 : cfg.DateProperty = ""
      · simp [h1, h2, ih, datePredicate, hidePredicate, List.countP_cons, Nat.add_assoc,
          Nat.add_comm 1]
      · by_cases h3 : pname = cfg.DateProperty
        · simp [h1, h2, h3, ih, datePredicate, hidePredicate, List.countP_cons, Nat.add_assoc,
            Nat.add_comm 1]
        · simp [h1, h2, h3, ih, datePredicate, hidePredicate, List.countP_cons]
    · by_cases h4 : ptype = "checkbox"
      · by_cases h5 : cfg.HideProperty = ""
        · simp [h1, h4, h5, ih, datePredicate, hidePredicate, List.countP_cons]
        · by_cases h6 : pname = cfg.HideProperty
          · simp [h1, h4, h5, h6, ih, datePredicate, hidePredicate, List.countP_cons,
              Nat.add_assoc, Nat.add_comm 1]
          · simp [h1, h4, h5, h6, ih, datePredicate, hidePredicate, List.countP_cons]
      · simp [h1, h4, ih, datePredicate, hidePredicate, List.countP_cons]

theorem splitArrow_no_arrow (l : List Char) (h : '→' ∉ l) : splitArrow l = (l, none) := by
  induction l with
  | nil => rfl
  | cons c rest ih =>
    have hc : ¬ c = '→' := fun hc => h (hc ▸ List.mem_cons_self c rest)
    have hrest : '→' ∉ rest := fun hr => h (List.mem_cons_of_mem c hr)
    simp only [splitArrow, if_neg hc, ih hrest]

theorem eventFromPageLoop_append (cfg : ConfigSourceAPI)
    (l₁ l₂ : List (String × DatabasePageProperty)) (title : String) (start endv : GoTime)
    (acc : List EventProperty) :
    eventFromPageLoop cfg (l₁ ++ l₂) title start endv acc =
      match eventFromPageLoop cfg l₁ title start endv acc with
      | none => none
      | some (t, s, e, a) => eventFromPageLoop cfg l₂ t s e a := by
  induction l₁ generalizing title start endv acc with
  | nil => rfl
  | cons pr rest ih =>
    obtain ⟨pname, p⟩ := pr
    simp only [List.cons_append, eventFromPageLoop]
    by_cases h1 : p.type = "title"
    · rw [if_pos h1, if_pos h1]
      exact ih _ _ _ _
    · rw [if_neg h1, if_neg h1]
      by_cases h2 : usesDate cfg (pname, p)
      · rw [if_pos h2, if_pos h2]
        cases p.date with
        | none => rfl
        | some d =>
          dsimp only
          cases d.endv with
          | none => rfl
          | some e => exact ih _ _ _ _
      · rw [if_neg h2, if_neg h2]
        by_cases h3 : p.type = "relation"
        · rw [if_pos h3, if_pos h3]
          exact ih _ _ _ _
        · rw [if_neg h3, if_neg h3]
          exact ih _ _ _ _

theorem eventFromPageLoop_no_date (cfg : ConfigSourceAPI)
    (l : List (String × DatabasePageProperty)) (h : ∀ pr ∈ l, ¬ usesDate cfg pr)
    (title : String) (start endv : GoTime) (acc : List EventProperty) :
    ∃ t' a', eventFromPageLoop cfg l title start endv acc = some (t', start, endv, a') := by
  induction l generalizing title acc with
  | nil => exact ⟨title, acc, rfl⟩
  | cons pr rest ih =>
    obtain ⟨pname, p⟩ := pr
    have hpr : ¬ usesDate cfg (pname, p) := h _ (List.mem_cons_self _ _)
    have hrest : ∀ q ∈ rest, ¬ usesDate cfg q := fun q hq => h q (List.mem_cons_of_mem _ hq)
    simp only [eventFromPageLoop]
    by_cases h1 : p.type = "title"
    · rw [if_pos h1]
      exact ih hrest _ _
    · rw [if_neg h1, if_neg hpr]
      by_cases h3 : p.type = "relation"
      · rw [if_pos h3]
        exact ih hrest _ _
      · rw [if_neg h3]
        exact ih hrest _ _

theorem getBlockChildrenContentPlain_flatMap (bs : List Block) :
    getBlockChildrenContentPlain bs =
      bs.flatMap
        (fun b => convertBlockContentPlain b :: getBlockChildrenContentPlain b.children) := by
  induction bs with
  | nil => simp [getBlockChildrenContentPlain]
  | cons b rest ih =>
    cases b with
    | mk ty rt ch cs =>
      rw [getBlockChildrenContentPlain, List.flatMap_cons, ih]
      cases cs with
      | nil => simp [Block.hasChildren, Block.children, getBlockChildrenContentPlain]
      | cons x xs => simp [Block.hasChildren, Block.children]

/-! ## Claims -/

/-- C2: the spec says a date-only input parses with the time defaulting
to midnight, and in particular `DateRangeParser("2023/01/02", zone)`
yields midnight of that day.  The code builds every candidate layout as
`dateFormat ++ " " ++ timeFormat`, so no layout accepts a bare date:
the parse fails with a date-parse error naming the input. -/
theorem C2_date_only_rejected (zone : Location) :
    parseNotionDateRange "2023/01/02" zone = .error (.parseDate "2023/01/02") := rfl

/-- C3: `NewSourceExport` keeps overwriting `name` for every archive
entry with the `.csv` suffix (the loop has no break), so of
`["a.csv", "b.csv"]` it selects `"b.csv"`, the last — not the first —
match, contradicting the source's own comment "Find the first CSV
file"; the no-CSV case is the hard error the claim states. -/
theorem C3_last_csv_selected :
    newSourceExportName ["a.csv", "b.csv"] = .ok "b.csv" ∧
    newSourceExportName ["a.csv", "b.csv"] ≠ .ok "a.csv" ∧
    newSourceExportName ["notes.txt", "image.png"] =
      .error "cannot find CSV file in ZIP file" := by
  refine ⟨rfl, ?_, rfl⟩
  intro h
  rw [show newSourceExportName ["a.csv", "b.csv"] = .ok "b.csv" from rfl] at h
  exact absurd (Except.ok.inj h) (by decide)

/-- C7: with an arrow present, a right part that parses as no full
date(+time) but as a time-only value is merged onto the left part's
calendar date; `"January 2, 2023 3:00 PM → 5:00 PM"` yields
2023-01-02T15:00 and 2023-01-02T17:00 in the requested zone. -/
theorem C7_time_only_right_side (zone : Location) :
    parseNotionDateRange "January 2, 2023 3:00 PM → 5:00 PM" zone =
      .ok (⟨2023, 1, 2, 15, 0, 0, zone⟩, ⟨2023, 1, 2, 17, 0, 0, zone⟩) := rfl

/-- C1 counterexample: a valid "date → date" string whose right side is
earlier than its left side parses successfully with end before start —
`parseNotionDateRange` never compares the two instants, so the claimed
invariant `end ≥ start` fails. -/
theorem C1_counterexample :
    parseNotionDateRange "2023/01/02 15:04 → 2023/01/01 15:04" utc =
      .ok (⟨2023, 1, 2, 15, 4, 0, utc⟩, ⟨2023, 1, 1, 15, 4, 0, utc⟩) ∧
    GoTime.before ⟨2023, 1, 1, 15, 4, 0, utc⟩ ⟨2023, 1, 2, 15, 4, 0, utc⟩ = true :=
  ⟨rfl, by decide⟩

/-- C4 counterexample: `findFirstColumn` scans the row map in map
iteration order and matches each key against the whole synonym set, so
under the realizable iteration order `[When, Date]` the exact pass
returns `"When"` even though `"date"` precedes `"when"` in the synonym
list — the claimed synonym preference order does not exist. -/
theorem C4_counterexample :
    findFirstColumn ["date", "when", "period"] [("When", "y"), ("Date", "x")] = ("When", "y") ∧
    (("When", "y") : String × String) ≠ ("Date", "x") :=
  ⟨rfl, by decide⟩

/-- C6 counterexample: a `child-page` block is not skipped: it
contributes its (empty) rendered line and its descendants are inlined,
so the tree `heading1("Intro") → [child_page("Sub") → [paragraph("x")]]`
flattens to three lines, not to `["# Intro"]` as the claimed skip
policy would require. -/
theorem C6_counterexample :
    getPageContentPlain (Block.mk .heading1 [⟨"Intro"⟩] none
        [Block.mk .childPage [⟨"Sub"⟩] none [Block.mk .paragraph [⟨"x"⟩] none []]]) =
      ["# Intro", "", "x"] ∧
    (["# Intro", "", "x"] : List String) ≠ ["# Intro"] := by
  constructor
  · simp [getPageContentPlain, getBlockChildrenContentPlain, convertBlockContentPlain,
      Block.hasChildren, Block.children, Block.btype, Block.rich, richTextToString,
      String.join]
  · decide

/-- C9: `NewSourceAPI`'s schema validation succeeds exactly when the
date-property match count is one (the configured name must name the
unique date-typed match; with no configured name exactly one date-typed
field may exist) and the optional hide-property resolves likewise; when
the date count is not one it fails with the configuration error that
carries the schema's field names. -/
theorem C9_date_resolution (cfg : ConfigSourceAPI) (schema : List (String × String)) :
    (newSourceAPIValidate cfg schema = .ok () ↔
      schema.countP (datePredicate cfg) = 1 ∧
        (cfg.HideProperty = "" ∨ schema.countP (hidePredicate cfg) = 1)) ∧
    (schema.countP (datePredicate cfg) ≠ 1 →
      newSourceAPIValidate cfg schema =
        .error (.noDateProperty cfg.DateProperty (schema.map Prod.fst))) := by
  constructor
  · rw [newSourceAPIValidate, newSourceAPIScan_eq]
    by_cases hd : schema.countP (datePredicate cfg) = 1
    · by_cases hh : cfg.HideProperty = ""
      · simp [hd, hh]
      · by_cases hc : schema.countP (hidePredicate cfg) = 1
        · simp [hd, hh, hc]
        · simp [hd, hh, hc]
    · simp [hd]
  · intro hd
    rw [newSourceAPIValidate, newSourceAPIScan_eq]
    simp [hd]

/-- C9 witness: with no configured date property and a schema holding
two date-typed fields, validation fails with the error listing the
available field names. -/
theorem C9_witness :
    (([("A", "date"), ("B", "date"), ("C", "rich_text")] :
        List (String × String)).countP (datePredicate ⟨"k", "db", "", ""⟩) ≠ 1) ∧
    newSourceAPIValidate ⟨"k", "db", "", ""⟩ [("A", "date"), ("B", "date"), ("C", "rich_text")] =
      .error (.noDateProperty "" ["A", "B", "C"]) :=
  ⟨by decide,
    (C9_date_resolution ⟨"k", "db", "", ""⟩
      [("A", "date"), ("B", "date"), ("C", "rich_text")]).2 (by decide)⟩

/-- C10: `SourceExport.ReadAll` never reads the `HideProperty`
configuration field — two configurations that agree on the archive, the
zone and the date property produce identical event lists. -/
theorem eventFromCSVRow_hide (a : List (List String)) (z : Location) (d h₁ h₂ : String)
    (hs r : List String) :
    eventFromCSVRow ⟨a, z, d, h₁⟩ hs r = eventFromCSVRow ⟨a, z, d, h₂⟩ hs r := by
  simp only [eventFromCSVRow, resolveDateCell]

theorem eventsFromRows_hide (a : List (List String)) (z : Location) (d h₁ h₂ : String)
    (hs : List String) (rows : List (List String)) :
    eventsFromRows ⟨a, z, d, h₁⟩ hs rows = eventsFromRows ⟨a, z, d, h₂⟩ hs rows := by
  induction rows with
  | nil => rfl
  | cons r rest ih =>
    simp only [eventsFromRows, eventFromCSVRow_hide a z d h₁ h₂ hs r, ih]

theorem C10_hide_ignored (c₁ c₂ : ConfigSourceExport) (ha : c₁.archive = c₂.archive)
    (hz : c₁.zone = c₂.zone) (hd : c₁.DateProperty = c₂.DateProperty) :
    readAllExport c₁ = readAllExport c₂ := by
  obtain ⟨a₁, z₁, d₁, h₁⟩ := c₁
  obtain ⟨a₂, z₂, d₂, h₂⟩ := c₂
  simp only at ha hz hd
  subst ha hz hd
  simp only [readAllExport]
  cases a₁ with
  | nil => rfl
  | cons hs rows => exact eventsFromRows_hide _ _ _ h₁ h₂ hs rows

/-- C10 witness: the same archive read with hide properties `""` and
`"Hidden"` yields the same result. -/
theorem C10_witness :
    readAllExport ⟨[["Name", "When"], ["A", "2023/01/02 15:04"]], utc, "", ""⟩ =
      readAllExport ⟨[["Name", "When"], ["A", "2023/01/02 15:04"]], utc, "", "Hidden"⟩ :=
  C10_hide_ignored _ _ rfl rfl rfl

/-- C1 (amended): `DateRangeParser` returns `(t1, t1)` for an
arrow-free input, so `end = start` there; with an arrow present the two
sides are parsed independently and no ordering is enforced (see the
counterexample); and `eventFromPage` copies the used date property's
end instant into the event unconditionally — when the end instant is
absent the page is not converted (nil dereference, modelled as `none`)
rather than falling back to `end = start`. -/
theorem C1_amended :
    (∀ (r : String) (zone : Location) (t₁ t₂ : GoTime), '→' ∉ r.data →
        parseNotionDateRange r zone = .ok (t₁, t₂) → t₂ = t₁) ∧
    (∀ (cfg : ConfigSourceAPI) (page : Page) (l₁ l₂ : List (String × DatabasePageProperty))
        (n : String) (p : DatabasePageProperty) (d : NotionDate),
      cfg.DateProperty = "" →
      page.properties = l₁ ++ (n, p) :: l₂ →
      (∀ q ∈ l₁, q.2.type ≠ "date") →
      (∀ q ∈ l₂, q.2.type ≠ "date") →
      p.type = "date" → p.date = some d →
      (d.endv = none → eventFromPage cfg page = none) ∧
      (∀ e, d.endv = some e →
        ∃ ev, eventFromPage cfg page = some ev ∧ ev.start = d.start ∧ ev.endTime = e)) := by
  constructor
  · intro r zone t₁ t₂ hna h
    rw [parseNotionDateRange, splitArrow_no_arrow r.data hna] at h
    dsimp only at h
    cases hp : parseNotionDate ⟨r.data⟩ zone with
    | error e =>
      rw [hp] at h
      exact absurd h (by simp)
    | ok t =>
      rw [hp] at h
      dsimp only at h
      simp only [Except.ok.injEq, Prod.mk.injEq] at h
      exact h.2.symm.trans h.1
  · intro cfg page l₁ l₂ n p d hdp hprops hl₁ hl₂ hpt hpd
    have hl₁n : ∀ q ∈ l₁, ¬ usesDate cfg q := fun q hq hu => hl₁ q hq hu.1
    have hl₂n : ∀ q ∈ l₂, ¬ usesDate cfg q := fun q hq hu => hl₂ q hq hu.1
    have hu : usesDate cfg (n, p) := ⟨hpt, Or.inl hdp⟩
    have htp : ¬ p.type = "title" := by rw [hpt]; decide
    obtain ⟨t', a', hrun⟩ :=
      eventFromPageLoop_no_date cfg l₁ hl₁n "" goZeroTime goZeroTime []
    constructor
    · intro hend
      have hfull : eventFromPageLoop cfg page.properties "" goZeroTime goZeroTime [] = none := by
        rw [hprops, eventFromPageLoop_append, hrun]
        dsimp only
        simp only [eventFromPageLoop]
        rw [if_neg htp, if_pos hu, hpd]
        dsimp only
        rw [hend]
      simp only [eventFromPage, hfull]
    · intro e hend
      obtain ⟨t'', a'', hrun₂⟩ :=
        eventFromPageLoop_no_date cfg l₂ hl₂n t' d.start e a'
      have hfull : eventFromPageLoop cfg page.properties "" goZeroTime goZeroTime [] =
          some (t'', d.start, e, a'') := by
        rw [hprops, eventFromPageLoop_append, hrun]
        dsimp only
        simp only [eventFromPageLoop]
        rw [if_neg htp, if_pos hu, hpd]
        dsimp only
        rw [hend]
        dsimp only
        exact hrun₂
      exact ⟨⟨page.id ++ "@notion-ical", t'', pageEmoji page, page.url, d.start, e,
        getPageContentPlain page.block, a''.insertionSort nameLe⟩,
        by simp only [eventFromPage, hfull], rfl, rfl⟩

/-- C1 witness: the arrow-free branch of `C1_amended` applied to the
concrete input `"2023/01/02 15:04"` in UTC. -/
theorem C1_witness :
    ('→' ∉ "2023/01/02 15:04".data) ∧
    (⟨2023, 1, 2, 15, 4, 0, utc⟩ : GoTime) = ⟨2023, 1, 2, 15, 4, 0, utc⟩ :=
  ⟨by decide, C1_amended.1 "2023/01/02 15:04" utc ⟨2023, 1, 2, 15, 4, 0, utc⟩
    ⟨2023, 1, 2, 15, 4, 0, utc⟩ (by decide) rfl⟩

/-- C6 (amended): the flattening is depth-first with a block's own
rendered line preceding the lines of its children and sibling order
preserved, and on the claimed example tree the four lines come out in
order; but no `child-page` block is skipped anywhere: go-notion's
pointer-typed blocks make the value-typed `case notion.ChildPageBlock`
of `getPageContentPlain` unreachable, so the root — like any descendant
`child-page` block, which hits no case of `convertBlockContentPlain`'s
switch — renders the empty line and its children are inlined (see the
counterexample). -/
theorem C6_depth_first :
    (∀ bs : List Block, getBlockChildrenContentPlain bs =
        bs.flatMap
          (fun b => convertBlockContentPlain b :: getBlockChildrenContentPlain b.children)) ∧
    (∀ (ty : BlockType) (rt : List RichText) (ch : Option Bool) (cs : List Block),
        getPageContentPlain (Block.mk ty rt ch cs) =
          convertBlockContentPlain (Block.mk ty rt ch cs) :: getBlockChildrenContentPlain cs) ∧
    (∀ (rt : List RichText) (ch : Option Bool) (cs : List Block),
        convertBlockContentPlain (Block.mk .childPage rt ch cs) = "") ∧
    getPageContentPlain (Block.mk .heading1 [⟨"Intro"⟩] none
        [Block.mk .paragraph [⟨"hi"⟩] none [], Block.mk .bulletedListItem [⟨"a"⟩] none [],
          Block.mk .bulletedListItem [⟨"b"⟩] none []]) = ["# Intro", "hi", "- a", "- b"] := by
  refine ⟨getBlockChildrenContentPlain_flatMap, ?_, ?_, ?_⟩
  · intro ty rt ch cs
    cases cs with
    | nil =>
      simp [getPageContentPlain, Block.hasChildren, Block.children,
        getBlockChildrenContentPlain]
    | cons x xs =>
      simp [getPageContentPlain, Block.hasChildren, Block.children]
  · intro rt ch cs
    rfl
  · simp [getPageContentPlain, getBlockChildrenContentPlain, convertBlockContentPlain,
      Block.hasChildren, Block.children, Block.btype, Block.rich, richTextToString,
      String.join]

/-- Combined match over both passes: the overall criterion for a key to
be resolvable by `findFirstColumn`. -/
def columnMatches (names : List String) (key : String) : Bool :=
  passMatch true names key || passMatch false names key

theorem findFirstColumnPass_eq_none (exact : Bool) (names : List String)
    (m : List (String × String)) :
    findFirstColumnPass exact names m = none ↔
      ∀ p ∈ m, passMatch exact names p.1 = false := by
  induction m with
  | nil => simp [findFirstColumnPass]
  | cons kv rest ih =>
    obtain ⟨key, value⟩ := kv
    by_cases h : passMatch exact names key = true
    · simp [findFirstColumnPass, h]
    · simp only [Bool.not_eq_true] at h
      simp [findFirstColumnPass, h, ih]

theorem findFirstColumnPass_some_match (exact : Bool) (names : List String)
    (m : List (String × String)) (r : String × String)
    (h : findFirstColumnPass exact names m = some r) :
    passMatch exact names r.1 = true := by
  induction m with
  | nil => simp [findFirstColumnPass] at h
  | cons kv rest ih =>
    obtain ⟨key, value⟩ := kv
    by_cases hm : passMatch exact names key = true
    · simp only [findFirstColumnPass, hm, if_true, Option.some.injEq] at h
      rw [← h]
      exact hm
    · simp only [Bool.not_eq_true] at hm
      simp only [findFirstColumnPass, hm, Bool.false_eq_true, if_false] at h
      exact ih h

theorem lowerS_ne_empty (q : String) (h : q ≠ "") : lowerS q ≠ "" := by
  intro hc
  apply h
  have hd : q.data.map Char.toLower = ([] : List Char) := congrArg String.data hc
  cases hq : q.data with
  | nil => exact String.ext hq
  | cons c cs =>
    rw [hq] at hd
    simp at hd

theorem containsSub_nil (needle : List Char) (h : needle ≠ []) :
    containsSub [] needle = false := by
  cases needle with
  | nil => exact absurd rfl h
  | cons c cs => simp [containsSub, startsWithL]

theorem passMatch_empty_key (exact : Bool) (names : List String)
    (hne : ∀ q ∈ names, q ≠ "") : passMatch exact names "" = false := by
  rw [passMatch, List.any_eq_false]
  intro q hq
  have hq1 : lowerS q ≠ "" := lowerS_ne_empty q (hne q hq)
  have hq2 : (lowerS q).data ≠ [] := by
    intro hc
    exact hq1 (String.ext hc)
  cases exact with
  | true =>
    simp only [if_true]
    intro hc
    exact hq1 (of_decide_eq_true hc).symm
  | false =>
    simp only [Bool.false_eq_true, if_false]
    show ¬ containsSub [] (lowerS q).data = true
    rw [containsSub_nil _ hq2]
    simp

theorem findFirstColumn_fst_empty_iff (names : List String) (hne : ∀ q ∈ names, q ≠ "")
    (m : List (String × String)) :
    (findFirstColumn names m).1 = "" ↔ ∀ p ∈ m, columnMatches names p.1 = false := by
  constructor
  · intro h p hp
    rw [findFirstColumn] at h
    cases h1 : findFirstColumnPass true names m with
    | some r =>
      rw [h1] at h
      dsimp only at h
      have hm := findFirstColumnPass_some_match true names m r h1
      rw [h] at hm
      exact absurd hm (by simp [passMatch_empty_key true names hne])
    | none =>
      rw [h1] at h
      cases h2 : findFirstColumnPass false names m with
      | some r =>
        rw [h2] at h
        dsimp only at h
        have hm := findFirstColumnPass_some_match false names m r h2
        rw [h] at hm
        exact absurd hm (by simp [passMatch_empty_key false names hne])
      | none =>
        have ha := (findFirstColumnPass_eq_none true names m).mp h1 p hp
        have hb := (findFirstColumnPass_eq_none false names m).mp h2 p hp
        simp [columnMatches, ha, hb]
  · intro h
    have split : ∀ p ∈ m, passMatch true names p.1 = false ∧ passMatch false names p.1 = false := by
      intro p hp
      have := h p hp
      simpa [columnMatches] using this
    have h1 : findFirstColumnPass true names m = none :=
      (findFirstColumnPass_eq_none true names m).mpr (fun p hp => (split p hp).1)
    have h2 : findFirstColumnPass false names m = none :=
      (findFirstColumnPass_eq_none false names m).mpr (fun p hp => (split p hp).2)
    rw [findFirstColumn, h1, h2]

theorem findFirstColumnPass_unique (exact : Bool) (names : List String)
    (m : List (String × String)) (r : String × String) (hr : r ∈ m)
    (hmatch : passMatch exact names r.1 = true)
    (hothers : ∀ p ∈ m, passMatch exact names p.1 = true → p = r) :
    findFirstColumnPass exact names m = some r := by
  induction m with
  | nil => exact absurd hr (List.not_mem_nil r)
  | cons kv rest ih =>
    obtain ⟨key, value⟩ := kv
    by_cases hm : passMatch exact names key = true
    · have : (key, value) = r := hothers _ (List.mem_cons_self _ _) hm
      simp [findFirstColumnPass, hm, this]
    · have hrr : r ∈ rest := by
        cases List.mem_cons.mp hr with
        | inl hh =>
          rw [hh] at hmatch
          exact absurd hmatch hm
        | inr hh => exact hh
      simp only [Bool.not_eq_true] at hm
      simp only [findFirstColumnPass, hm, Bool.false_eq_true, if_false]
      exact ih hrr (fun p hp hpm => hothers p (List.mem_cons_of_mem _ hp) hpm)

/-- C4 (amended): column resolution is a case-insensitive exact pass
followed by a substring pass, each over the row map in its (arbitrary)
iteration order, matching a key against the whole synonym set — the
synonym list carries no preference between headers matching in the same
pass (see the counterexample); resolution yields the empty key exactly
when no header matches either pass; on the claimed example headers the
title resolves to "Event Name" and the date to "When" under every
iteration order, and the properties are exactly the "Notes" column. -/
theorem C4_two_pass_resolution :
    (∀ l : List (String × String),
        l.Perm [("Event Name", "t"), ("When", "d"), ("Notes", "n")] →
        findFirstColumn ["date", "when", "period"] l = ("When", "d") ∧
        findFirstColumn ["name", "title"] l = ("Event Name", "t")) ∧
    (∀ m : List (String × String),
        ((findFirstColumn ["date", "when", "period"] m).1 = "" ↔
          ∀ p ∈ m, columnMatches ["date", "when", "period"] p.1 = false)) ∧
    (∀ m : List (String × String),
        ((findFirstColumn ["name", "title"] m).1 = "" ↔
          ∀ p ∈ m, columnMatches ["name", "title"] p.1 = false)) ∧
    (eventFromCSVRow ⟨[], utc, "", ""⟩ ["Event Name", "When", "Notes"]
        ["Party", "2023/01/02 15:04", "bring cake"]).toOption.map Event.properties =
      some [EventProperty.exportProperty "Notes" "bring cake"] := by
  refine ⟨?_, findFirstColumn_fst_empty_iff _ (by decide),
    findFirstColumn_fst_empty_iff _ (by decide), ?_⟩
  · intro l hl
    have hmem : ∀ p : String × String, p ∈ l ↔
        (p = ("Event Name", "t") ∨ p = ("When", "d") ∨ p = ("Notes", "n")) := by
      intro p
      rw [hl.mem_iff]
      simp
    constructor
    · have h1 : findFirstColumnPass true ["date", "when", "period"] l = some ("When", "d") := by
        apply findFirstColumnPass_unique
        · exact (hmem _).mpr (Or.inr (Or.inl rfl))
        · decide
        · intro p hp hpm
          rcases (hmem p).mp hp with h | h | h <;> subst h
          · exact absurd hpm (by decide)
          · rfl
          · exact absurd hpm (by decide)
      rw [findFirstColumn, h1]
    · have h1 : findFirstColumnPass true ["name", "title"] l = none := by
        rw [findFirstColumnPass_eq_none]
        intro p hp
        rcases (hmem p).mp hp with h | h | h <;> subst h <;> decide
      have h2 : findFirstColumnPass false ["name", "title"] l = some ("Event Name", "t") := by
        apply findFirstColumnPass_unique
        · exact (hmem _).mpr (Or.inl rfl)
        · decide
        · intro p hp hpm
          rcases (hmem p).mp hp with h | h | h <;> subst h
          · rfl
          · exact absurd hpm (by decide)
          · exact absurd hpm (by decide)
      rw [findFirstColumn, h1, h2]
  · rfl

/-- C4 witness: the permutation-robust resolution applied to one
concrete iteration order of the example headers. -/
theorem C4_witness :
    findFirstColumn ["date", "when", "period"]
        [("Notes", "n"), ("When", "d"), ("Event Name", "t")] = ("When", "d") ∧
    findFirstColumn ["name", "title"]
        [("Notes", "n"), ("When", "d"), ("Event Name", "t")] = ("Event Name", "t") :=
  C4_two_pass_resolution.1 [("Notes", "n"), ("When", "d"), ("Event Name", "t")] (by decide)

theorem eventFromCSVRow_id (cfg : ConfigSourceExport) (headers record : List String)
    (ev : Event) (h : eventFromCSVRow cfg headers record = .ok ev) :
    ∃ s, marshalText ev.start = .ok s ∧
      ev.id = hexEncode (sha256Sum (stringBytes ev.title ++ stringBytes s)) ++
        "@notion-ical-export" := by
  simp only [eventFromCSVRow] at h
  cases h1 : headersAndRecordToMap headers record with
  | error e =>
    rw [h1] at h
    exact absurd h (by simp)
  | ok m =>
    rw [h1] at h
    dsimp only at h
    cases h2 : resolveDateCell cfg m with
    | error e =>
      rw [h2] at h
      exact absurd h (by simp)
    | ok kv =>
      obtain ⟨dateKey, dateVal⟩ := kv
      rw [h2] at h
      dsimp only at h
      cases h3 : parseNotionDateRange dateVal cfg.zone with
      | error e =>
        rw [h3] at h
        exact absurd h (by simp)
      | ok se =>
        obtain ⟨start, endv⟩ := se
        rw [h3] at h
        dsimp only at h
        rcases hf : findFirstColumn ["name", "title"] m with ⟨titleKey, title⟩
        rw [hf] at h
        dsimp only at h
        by_cases ht : titleKey = ""
        · rw [if_pos ht] at h
          exact absurd h (by simp)
        · rw [if_neg ht] at h
          cases h4 : marshalText start with
          | error e =>
            rw [h4] at h
            exact absurd h (by simp)
          | ok dateText =>
            rw [h4] at h
            dsimp only at h
            simp only [Except.ok.injEq] at h
            subst h
            exact ⟨dateText, h4, rfl⟩

/-- C5: the snapshot-source id is a function of the resolved title and
the parsed start instant only — a content hash of the title bytes
concatenated with the serialized start instant, suffixed with the fixed
origin tag — so any two rows (in the same or different runs, with any
headers and configurations) whose events agree on title and start get
the same id. -/
theorem C5_id_deterministic (cfg₁ cfg₂ : ConfigSourceExport) (h₁ r₁ h₂ r₂ : List String)
    (e₁ e₂ : Event) (ho₁ : eventFromCSVRow cfg₁ h₁ r₁ = .ok e₁)
    (ho₂ : eventFromCSVRow cfg₂ h₂ r₂ = .ok e₂) (ht : e₁.title = e₂.title)
    (hs : e₁.start = e₂.start) : e₁.id = e₂.id := by
  obtain ⟨s₁, hm₁, hid₁⟩ := eventFromCSVRow_id cfg₁ h₁ r₁ e₁ ho₁
  obtain ⟨s₂, hm₂, hid₂⟩ := eventFromCSVRow_id cfg₂ h₂ r₂ e₂ ho₂
  rw [hs] at hm₁
  rw [hm₂] at hm₁
  have hss : s₂ = s₁ := Except.ok.inj hm₁
  rw [hid₁, hid₂, ht, hss]

/-- The keep criterion of `eventFromPage`'s property loop: neither the
title property, nor the date property in use, nor a relation. -/
def keptProp (cfg : ConfigSourceAPI) (pr : String × DatabasePageProperty) : Prop :=
  pr.2.type ≠ "title" ∧ ¬ usesDate cfg pr ∧ pr.2.type ≠ "relation"

instance (cfg : ConfigSourceAPI) (pr : String × DatabasePageProperty) :
    Decidable (keptProp cfg pr) := by
  unfold keptProp
  infer_instance

theorem eventFromPageLoop_acc (cfg : ConfigSourceAPI)
    (l : List (String × DatabasePageProperty)) (title : String) (start endv : GoTime)
    (acc : List EventProperty) (out : String × GoTime × GoTime × List EventProperty)
    (h : eventFromPageLoop cfg l title start endv acc = some out) :
    out.2.2.2 = acc ++ (l.filter fun pr => decide (keptProp cfg pr)).map
      (fun pr => EventProperty.api (populateName pr)) := by
  induction l generalizing title start endv acc with
  | nil =>
    simp only [eventFromPageLoop, Option.some.injEq] at h
    subst h
    simp
  | cons pr rest ih =>
    obtain ⟨pname, p⟩ := pr
    simp only [eventFromPageLoop] at h
    by_cases h1 : p.type = "title"
    · rw [if_pos h1] at h
      have hk : ¬ keptProp cfg (pname, p) := fun hkk => hkk.1 h1
      rw [List.filter_cons_of_neg (by simp [hk])]
      exact ih _ _ _ _ h
    · rw [if_neg h1] at h
      by_cases h2 : usesDate cfg (pname, p)
      · rw [if_pos h2] at h
        have hk : ¬ keptProp cfg (pname, p) := fun hkk => hkk.2.1 h2
        rw [List.filter_cons_of_neg (by simp [hk])]
        cases hd : p.date with
        | none =>
          rw [hd] at h
          exact absurd h (by simp)
        | some d =>
          rw [hd] at h
          dsimp only at h
          cases he : d.endv with
          | none =>
            rw [he] at h
            exact absurd h (by simp)
          | some e =>
            rw [he] at h
            dsimp only at h
            exact ih _ _ _ _ h
      · rw [if_neg h2] at h
        by_cases h3 : p.type = "relation"
        · rw [if_pos h3] at h
          have hk : ¬ keptProp cfg (pname, p) := fun hkk => hkk.2.2 h3
          rw [List.filter_cons_of_neg (by simp [hk])]
          exact ih _ _ _ _ h
        · rw [if_neg h3] at h
          have hk : keptProp cfg (pname, p) := ⟨h1, h2, h3⟩
          rw [List.filter_cons_of_pos (by simp [hk])]
          rw [ih _ _ _ _ h]
          simp

theorem exportProps_foldl (dk tk : String) (l : List (String × String))
    (acc : List EventProperty) :
    l.foldl (fun acc kv =>
        if kv.1 = dk || kv.1 = tk then acc
        else acc ++ [EventProperty.exportProperty kv.1 kv.2]) acc =
      acc ++ (l.filter fun kv => !(kv.1 = dk || kv.1 = tk)).map
        (fun kv => EventProperty.exportProperty kv.1 kv.2) := by
  induction l generalizing acc with
  | nil => simp
  | cons kv rest ih =>
    rw [List.foldl_cons]
    by_cases h1 : kv.1 = dk
    · rw [if_pos (by simp [h1] : (decide (kv.1 = dk) || decide (kv.1 = tk)) = true),
        List.filter_cons_of_neg (by simp [h1])]
      exact ih acc
    · by_cases h2 : kv.1 = tk
      · rw [if_pos (by simp [h2] : (decide (kv.1 = dk) || decide (kv.1 = tk)) = true),
          List.filter_cons_of_neg (by simp [h2])]
        exact ih acc
      · rw [if_neg (by simp [h1, h2] : ¬ (decide (kv.1 = dk) || decide (kv.1 = tk)) = true),
          List.filter_cons_of_pos (by simp [h1, h2])]
        rw [ih (acc ++ [EventProperty.exportProperty kv.1 kv.2])]
        simp

/-- C8: the event's properties are exactly the record's fields minus
the title-typed field, the date field in use, and (for the live source)
relation-typed fields; the live source emits them as a permutation that
is pairwise nondecreasing on display name (the `sort.Slice`
postcondition), while the snapshot source preserves original column
order. -/
theorem C8_properties :
    (∀ (cfg : ConfigSourceAPI) (page : Page) (ev : Event),
        eventFromPage cfg page = some ev →
        ev.properties.Perm ((page.properties.filter fun pr => decide (keptProp cfg pr)).map
          (fun pr => EventProperty.api (populateName pr))) ∧
        ev.properties.Pairwise nameLe) ∧
    (∀ (cfg : ConfigSourceExport) (headers record : List String) (ev : Event)
        (m : List (String × String)) (dateKey dateVal : String),
        headersAndRecordToMap headers record = .ok m →
        resolveDateCell cfg m = .ok (dateKey, dateVal) →
        eventFromCSVRow cfg headers record = .ok ev →
        ev.properties = ((headers.zip record).filter fun kv =>
            !(kv.1 = dateKey || kv.1 = (findFirstColumn ["name", "title"] m).1)).map
          (fun kv => EventProperty.exportProperty kv.1 kv.2)) := by
  constructor
  · intro cfg page ev h
    simp only [eventFromPage] at h
    cases hl : eventFromPageLoop cfg page.properties "" goZeroTime goZeroTime [] with
    | none =>
      rw [hl] at h
      exact absurd h (by simp)
    | some out =>
      obtain ⟨t, s, e, props⟩ := out
      rw [hl] at h
      dsimp only at h
      simp only [Option.some.injEq] at h
      subst h
      have hacc := eventFromPageLoop_acc cfg page.properties "" goZeroTime goZeroTime [] _ hl
      dsimp only at hacc
      rw [List.nil_append] at hacc
      constructor
      · exact (List.perm_insertionSort nameLe props).trans (by rw [hacc])
      · exact List.sorted_insertionSort nameLe props
  · intro cfg headers record ev m dateKey dateVal h1 h2 h
    simp only [eventFromCSVRow] at h
    rw [h1] at h
    dsimp only at h
    rw [h2] at h
    dsimp only at h
    cases h3 : parseNotionDateRange dateVal cfg.zone with
    | error e =>
      rw [h3] at h
      exact absurd h (by simp)
    | ok se =>
      obtain ⟨start, endv⟩ := se
      rw [h3] at h
      dsimp only at h
      rcases hf : findFirstColumn ["name", "title"] m with ⟨titleKey, title⟩
      rw [hf] at h
      dsimp only at h
      by_cases ht : titleKey = ""
      · rw [if_pos ht] at h
        exact absurd h (by simp)
      · rw [if_neg ht] at h
        cases h4 : marshalText start with
        | error e =>
          rw [h4] at h
          exact absurd h (by simp)
        | ok dateText =>
          rw [h4] at h
          dsimp only at h
          simp only [Except.ok.injEq] at h
          subst h
          dsimp only
          rw [exportProps_foldl]
          simp

/-- The event of the row `["Party", "2023/01/02 15:04", "bring cake"]`
under headers `["Event Name", "When", "Notes"]`. -/
def evA5 : Event :=
  ⟨"1c02c542bdc5f6780c2c14a18ec0d1fc219f1b20727e4108a880a0c5730a50f9@notion-ical-export",
    "Party", "", "", ⟨2023, 1, 2, 15, 4, 0, utc⟩, ⟨2023, 1, 2, 15, 4, 0, utc⟩, [],
    [EventProperty.exportProperty "Notes" "bring cake"]⟩

/-- The event of the row `["2023/01/02 15:04", "Party"]` under headers
`["When", "Name"]`: same title and start, different layout. -/
def evB5 : Event :=
  ⟨"1c02c542bdc5f6780c2c14a18ec0d1fc219f1b20727e4108a880a0c5730a50f9@notion-ical-export",
    "Party", "", "", ⟨2023, 1, 2, 15, 4, 0, utc⟩, ⟨2023, 1, 2, 15, 4, 0, utc⟩, [], []⟩

/-- C5 witness: two rows with different headers and columns but the
same title and start instant receive the same id. -/
theorem C5_witness :
    eventFromCSVRow ⟨[], utc, "", ""⟩ ["Event Name", "When", "Notes"]
        ["Party", "2023/01/02 15:04", "bring cake"] = .ok evA5 ∧
    eventFromCSVRow ⟨[], utc, "", ""⟩ ["When", "Name"]
        ["2023/01/02 15:04", "Party"] = .ok evB5 ∧
    evA5.id = evB5.id :=
  ⟨rfl, rfl,
    C5_id_deterministic ⟨[], utc, "", ""⟩ ⟨[], utc, "", ""⟩
      ["Event Name", "When", "Notes"] ["Party", "2023/01/02 15:04", "bring cake"]
      ["When", "Name"] ["2023/01/02 15:04", "Party"] evA5 evB5 rfl rfl rfl rfl⟩

/-- A sample page for the C8 witness: a title, a date, two text
properties and a relation, in a scrambled iteration order. -/
def pageW8 : Page :=
  ⟨"pid", "purl", none,
    [("Zebra", ⟨"rich_text", "", [], [⟨"z"⟩], none, none, [], none, none⟩),
     ("When", ⟨"date", "", [], [],
        some ⟨⟨2023, 1, 2, 15, 0, 0, utc⟩, some ⟨2023, 1, 2, 17, 0, 0, utc⟩⟩,
        none, [], none, none⟩),
     ("Name", ⟨"title", "", [⟨"Party"⟩], [], none, none, [], none, none⟩),
     ("Alpha", ⟨"rich_text", "", [], [⟨"a"⟩], none, none, [], none, none⟩),
     ("Rel", ⟨"relation", "", [], [], none, none, ["i1"], none, none⟩)],
    Block.mk .childPage [] none []⟩

/-- The event `eventFromPage` produces from `pageW8` (the childless
`child-page` root block renders one empty content line). -/
def evW8 : Event :=
  ⟨"pid@notion-ical", "Party", "", "purl", ⟨2023, 1, 2, 15, 0, 0, utc⟩,
    ⟨2023, 1, 2, 17, 0, 0, utc⟩, [""],
    [EventProperty.api ⟨"rich_text", "Alpha", [], [⟨"a"⟩], none, none, [], none, none⟩,
     EventProperty.api ⟨"rich_text", "Zebra", [], [⟨"z"⟩], none, none, [], none, none⟩]⟩

/-- C8 witness: on the sample page the produced properties are the
permutation of the kept fields sorted by name (Alpha before Zebra;
title, used date and relation excluded). -/
theorem C8_witness :
    eventFromPage ⟨"k", "db", "", ""⟩ pageW8 = some evW8 ∧
    evW8.properties.Perm
      ((pageW8.properties.filter fun pr => decide (keptProp ⟨"k", "db", "", ""⟩ pr)).map
        (fun pr => EventProperty.api (populateName pr))) ∧
    evW8.properties.Pairwise nameLe :=
  ⟨rfl, (C8_properties.1 ⟨"k", "db", "", ""⟩ pageW8 evW8 rfl).1,
    (C8_properties.1 ⟨"k", "db", "", ""⟩ pageW8 evW8 rfl).2⟩

end NotionIcal
